import Mathlib

/-!
Verification of the knoxite snapshot decode pipeline (`lib/decode.go`).

The Go source is shallowly embedded: byte slices become `List Nat`,
Go's multiple-return `(T, error)` becomes `Except`, and the external
collaborators of the decode core (the `Decrypt`/`Uncompress` helpers,
SHA-256 hex digesting, the Reed-Solomon codec from
github.com/klauspost/reedsolomon, the `Backend` interface and the
filesystem calls from `os`) are parameters: records of functions that a
concrete instantiation supplies.  Stateful pieces (the package-level
chunk cache and its mutex, bytes written to an open file, progress
events sent on a channel) are threaded explicitly as values.
-/

/-- Byte slices (`[]byte`) are modelled as lists of naturals. -/
abbrev Bytes := List Nat

/-- Encryption selector; the source compares `chunk.Encrypted` against the
constant `EncryptionAES`. -/
inductive EncryptionType where
  | EncryptionNone
  | EncryptionAES
deriving DecidableEq, Repr

/-- Compression selector; the source compares `chunk.Compressed` against the
constant `CompressionGZip`. -/
inductive CompressionType where
  | CompressionNone
  | CompressionGZip
deriving DecidableEq, Repr

/-- A chunk descriptor.  The struct itself is declared outside `decode.go`;
its fields are the ones `decode.go` reads, with types per the spec's data
model (`Size`, `DataParts`, `ParityParts`, `ShaSum`, `DecryptedShaSum`,
`Encrypted`, `Compressed`).  `LogicalIndex` is the logical-order tag
consulted by `IndexOfChunk` (modelled from the spec: the chunk sequence is
"tagged with a logical index"). -/
structure Chunk where
  Size : Nat
  DataParts : Nat
  ParityParts : Nat
  ShaSum : String
  DecryptedShaSum : String
  Encrypted : EncryptionType
  Compressed : CompressionType
  LogicalIndex : Nat
deriving DecidableEq, Repr

instance : Inhabited Chunk :=
  ⟨{ Size := 0, DataParts := 0, ParityParts := 0, ShaSum := "",
     DecryptedShaSum := "", Encrypted := .EncryptionNone,
     Compressed := .CompressionNone, LogicalIndex := 0 }⟩

/-- Errors of the decode pipeline.  The structured errors declared in
`decode.go` (`CheckSumError`, `DataReconstructionError`, `ChunkError`,
`SeekError`) get their own constructors; every opaque `error` coming from
an external collaborator (cipher, gzip, Reed-Solomon, backend, filesystem)
is carried verbatim as its message string in `external`. -/
inductive DecodeError where
  | external (msg : String)
  | checkSum (method expected found : String)
  | reconstruction (chunk : Chunk) (blocksFound failedBackends : Nat)
  | chunkError (num : Nat)
  | seekError (offset : Nat)
deriving DecidableEq, Repr

/-- The Reed-Solomon encoder returned by `reedsolomon.New`.  `Reconstruct`
models the in-place repair of the shard array (`enc.Reconstruct(pars)`,
returning the mutated array on success); `Join` models
`enc.Join(w, pars, size)` writing the joined, size-trimmed bytes. -/
structure RSEnc where
  Reconstruct : List (Option Bytes) → Except String (List (Option Bytes))
  Join : List (Option Bytes) → Nat → Except String Bytes

/-- Pure external collaborators of `decode.go`: the repository's
`Decrypt(b, password)` and `Uncompress(b)` helpers, the composition
`hex.EncodeToString(sha256.Sum256(b)[:])` (which yields a lowercase hex
digest) as `sha256hex`, `reedsolomon.New(dataParts, parityParts)` as
`rsNew`, and the path helpers `filepath.Dir` and `filepath.Join`. -/
structure Externals where
  Decrypt : Bytes → String → Except String Bytes
  Uncompress : Bytes → Except String Bytes
  sha256hex : Bytes → String
  rsNew : Nat → Nat → Except String RSEnc
  dir : String → String
  joinPath : String → String → String

/-- The storage backend: `LoadChunk(chunk, part)` fetches one shard. -/
structure Backend where
  LoadChunk : Chunk → Nat → Except String Bytes

/-- A repository carries the password and the backend handle. -/
structure Repository where
  Password : String
  Backend : Backend

/-- Translation of `decodeChunk(repository, chunk, b)` from `decode.go`: optionally
authenticated-decrypt, optionally decompress, then verify the SHA-256 hex
digest of the result against `chunk.DecryptedShaSum`, failing with
`CheckSumError{"sha256", expected, got}` on mismatch. -/
def decodeChunk (ext : Externals) (repo : Repository) (chunk : Chunk)
    (b : Bytes) : Except DecodeError Bytes :=
  match chunk.Encrypted with
  | .EncryptionAES =>
    match ext.Decrypt b repo.Password with
    | .error e => .error (.external e)
    | .ok b1 => decodeChunkRest ext chunk b1
  | .EncryptionNone => decodeChunkRest ext chunk b
where
  /-- The tail of `decodeChunk` after the encryption step: the gzip step
  and the checksum verification. -/
  decodeChunkRest (ext : Externals) (chunk : Chunk) (b : Bytes) :
      Except DecodeError Bytes :=
    match chunk.Compressed with
    | .CompressionGZip =>
      match ext.Uncompress b with
      | .error e => .error (.external e)
      | .ok b2 => decodeChunkSum ext chunk b2
    | .CompressionNone => decodeChunkSum ext chunk b
  /-- The final checksum comparison of `decodeChunk`. -/
  decodeChunkSum (ext : Externals) (chunk : Chunk) (b : Bytes) :
      Except DecodeError Bytes :=
    let shasum := ext.sha256hex b
    if chunk.DecryptedShaSum ≠ shasum then
      .error (.checkSum "sha256" chunk.DecryptedShaSum shasum)
    else
      .ok b

/-- Spec-side restatement of the codec contract, written from the spec's
words ("apply in this fixed order — (1) if `chunk.Encrypted == AES` ...
(2) If `chunk.Compressed == GZip` ... (3) Compute SHA-256 of the result;
if the lowercase hex digest ≠ `chunk.DecryptedShaSum`, fail with
`ChecksumError{method:"sha256", expected, got}`"), to be compared with
`decodeChunk` above. -/
def decodeChunkSpec (ext : Externals) (repo : Repository) (chunk : Chunk)
    (b : Bytes) : Except DecodeError Bytes := do
  let b1 ←
    if chunk.Encrypted = .EncryptionAES then
      (ext.Decrypt b repo.Password).mapError DecodeError.external
    else pure b
  let b2 ←
    if chunk.Compressed = .CompressionGZip then
      (ext.Uncompress b1).mapError DecodeError.external
    else pure b1
  let digest := ext.sha256hex b2
  if digest = chunk.DecryptedShaSum then pure b2
  else throw (.checkSum "sha256" chunk.DecryptedShaSum digest)

/-- Subtraction of Go `uint` values (the source computes
`chunk.DataParts - parsFound` on `uint`s, which wraps modulo 2^64).
Both arguments are assumed below 2^64. -/
def goUintSub (a b : Nat) : Nat := (a + 2 ^ 64 - b) % 2 ^ 64

/-- The shard loop of `loadChunk` (`for i := 0; i < int(chunk.DataParts+
chunk.ParityParts); i++ { ... }`), with the remaining shard indices as an
explicit list and the loop state (`pars`, `parsFound`, `parsMissing`)
threaded.  A missing shard is recorded as `none`; once
`parsFound >= chunk.DataParts`, reconstruction (when shards are missing)
and join are attempted, continuing with the next index on failure; if the
indices run out, the loop fails with
`DataReconstructionError{chunk, parsFound, chunk.DataParts - parsFound}`. -/
def loadChunkLoop (ext : Externals) (repo : Repository) (chunk : Chunk)
    (enc : RSEnc) :
    List Nat → List (Option Bytes) → Nat → Nat → Except DecodeError Bytes
  | [], _, parsFound, _ =>
    .error (.reconstruction chunk parsFound (goUintSub chunk.DataParts parsFound))
  | i :: rest, pars, parsFound, parsMissing =>
    match repo.Backend.LoadChunk chunk i with
    | .error _ =>
      loadChunkLoop ext repo chunk enc rest (pars.set i none) parsFound
        (parsMissing + 1)
    | .ok d =>
      let pars1 := pars.set i (some d)
      let parsFound1 := parsFound + 1
      if chunk.DataParts ≤ parsFound1 then
        if 0 < parsMissing then
          match enc.Reconstruct pars1 with
          | .error _ => loadChunkLoop ext repo chunk enc rest pars1 parsFound1 parsMissing
          | .ok pars2 =>
            match enc.Join pars2 chunk.Size with
            | .error _ => loadChunkLoop ext repo chunk enc rest pars2 parsFound1 parsMissing
            | .ok b => decodeChunk ext repo chunk b
        else
          match enc.Join pars1 chunk.Size with
          | .error _ => loadChunkLoop ext repo chunk enc rest pars1 parsFound1 parsMissing
          | .ok b => decodeChunk ext repo chunk b
      else
        loadChunkLoop ext repo chunk enc rest pars1 parsFound1 parsMissing

/-- Translation of `loadChunk(repository, chunk)` from `decode.go`: for `ParityParts > 0`,
build the Reed-Solomon codec and run the shard loop over indices
`0 .. DataParts+ParityParts-1`; otherwise fetch the single blob with
`Backend.LoadChunk(chunk, 0)` and decode it. -/
def loadChunk (ext : Externals) (repo : Repository) (chunk : Chunk) :
    Except DecodeError Bytes :=
  if 0 < chunk.ParityParts then
    match ext.rsNew chunk.DataParts chunk.ParityParts with
    | .error e => .error (.external e)
    | .ok enc =>
      loadChunkLoop ext repo chunk enc
        (List.range (chunk.DataParts + chunk.ParityParts))
        (List.replicate (chunk.DataParts + chunk.ParityParts) none) 0 0
  else
    match repo.Backend.LoadChunk chunk 0 with
    | .error e => .error (.external e)
    | .ok b => decodeChunk ext repo chunk b

/-- Whether the backend can fetch shard `i` of `chunk`. -/
def shardOk (repo : Repository) (chunk : Chunk) (i : Nat) : Bool :=
  match repo.Backend.LoadChunk chunk i with
  | .ok _ => true
  | .error _ => false

/-- The number of fetchable shards among indices `0 .. DataParts+ParityParts-1`. -/
def fetchCount (repo : Repository) (chunk : Chunk) : Nat :=
  (List.range (chunk.DataParts + chunk.ParityParts)).countP (shardOk repo chunk)

/-- Archive entry types (`arc.Type` in the source; `Type` is a Lean keyword,
so the field is named `AType` below). -/
inductive ArchiveType where
  | File
  | Directory
  | SymLink
deriving DecidableEq, Repr

/-- One filesystem entry of a snapshot.  Declared outside `decode.go`; the
fields are the ones `decode.go` reads (`Type`, `Path`, `Mode`, `UID`,
`GID`, `ModTime`, `PointsTo`, `Size`, `StorageSize`, `Chunks`), typed per
the spec's data model.  `ModTime` is an opaque timestamp. -/
structure Archive where
  AType : ArchiveType
  Path : String
  Mode : Nat
  UID : Nat
  GID : Nat
  ModTime : Int
  PointsTo : String
  Size : Nat
  StorageSize : Nat
  Chunks : List Chunk
deriving DecidableEq, Repr

/-- Modelled from the spec: `IndexOfChunk(i)` "returns the position in the
sequence whose logical index is `i`" (the method lives outside
`decode.go`); a logical index not present fails with `ChunkError{i}` (the
spec's error table: raised by the archive index lookup). -/
def Archive.IndexOfChunk (arc : Archive) (i : Nat) : Except DecodeError Nat :=
  match arc.Chunks.findIdx? (fun c => c.LogicalIndex = i) with
  | some idx => .ok idx
  | none => .error (.chunkError i)

/-- Statistics counters carried by progress events (modelled from the
spec: "counters for files, directories, symlinks, and
transferred/total/storage bytes"). -/
structure Stats where
  Files : Nat := 0
  Dirs : Nat := 0
  SymLinks : Nat := 0
  Size : Nat := 0
  StorageSize : Nat := 0
  Transferred : Nat := 0
deriving DecidableEq, Repr

/-- A progress event (modelled from the spec:
"`{archive, totalStats, currentItemStats, error?}`"); the archive is
identified by its path. -/
structure Progress where
  Path : String
  TotalStatistics : Stats
  CurrentItemStats : Stats
  Error : Option DecodeError
deriving DecidableEq, Repr

/-- Modelled from the spec: `newProgress(&arc)` (declared outside
`decode.go`) builds an error-free progress event for an archive. -/
def newProgress (arc : Archive) : Progress :=
  { Path := arc.Path, TotalStatistics := {}, CurrentItemStats := {},
    Error := none }

/-- Modelled from the spec: `newProgressError(err)` (declared outside
`decode.go`) builds a progress event whose error field carries `err`. -/
def newProgressError (e : DecodeError) : Progress :=
  { Path := "", TotalStatistics := {}, CurrentItemStats := {},
    Error := some e }

/-- The package-level mutable state of `decode.go`: the chunk cache
(`cache map[string][]byte`, as an association list with the newest binding
first) and whether its guarding `mutex` is currently held. -/
structure CacheState where
  cache : List (String × Bytes)
  locked : Bool
deriving DecidableEq, Repr

/-- Go map lookup `cache[k]` on the association-list model. -/
def lookupCache : List (String × Bytes) → String → Option Bytes
  | [], _ => none
  | (k, v) :: rest, key => if k = key then some v else lookupCache rest key

/-- Go map insert `cache[k] = v` on the association-list model (the new
binding shadows any older one). -/
def insertCache (c : List (String × Bytes)) (k : String) (v : Bytes) :
    List (String × Bytes) :=
  (k, v) :: c

/-- Outcome of one cache-mediated chunk read: the bytes handed back (empty
on error, mirroring the Go functions returning `&b` with `b` untouched),
the error if any, the package state afterwards, and how many times
`loadChunk` (hence the backend load sequence) was invoked. -/
structure DataRun where
  bytes : Bytes
  err : Option DecodeError
  state : CacheState
  loads : Nat
deriving DecidableEq, Repr

/-- Translation of `readArchiveChunk(repository, arc, chunkNum)` from `decode.go`: resolve
the logical index, lock the mutex, consult the cache, load-and-insert on a
miss, unlock, and return the bytes.  Note the source's miss-failure path
returns without calling `mutex.Unlock()`, so the state keeps
`locked = true` there. -/
def readArchiveChunk (ext : Externals) (repo : Repository) (arc : Archive)
    (chunkNum : Nat) (st : CacheState) : DataRun :=
  match arc.IndexOfChunk chunkNum with
  | .error e => { bytes := [], err := some e, state := st, loads := 0 }
  | .ok idx =>
    let chunk := arc.Chunks.getD idx default
    let st1 : CacheState := { st with locked := true }
    match lookupCache st1.cache chunk.ShaSum with
    | some cd =>
      { bytes := cd, err := none, state := { st1 with locked := false },
        loads := 0 }
    | none =>
      match loadChunk ext repo chunk with
      | .error e => { bytes := [], err := some e, state := st1, loads := 1 }
      | .ok cd =>
        { bytes := cd, err := none,
          state := { cache := insertCache st1.cache chunk.ShaSum cd,
                     locked := false },
          loads := 1 }

/-- The per-chunk loop of `DecodeArchiveData`, over the remaining logical
indices, accumulating the output bytes `b` and threading the package
state; `loads` counts `loadChunk` invocations.  As in the source, the
miss-failure path returns while the mutex is still held. -/
def decodeArchiveDataLoop (ext : Externals) (repo : Repository)
    (arc : Archive) :
    List Nat → Bytes → CacheState → Nat → DataRun
  | [], b, st, loads => { bytes := b, err := none, state := st, loads }
  | i :: rest, b, st, loads =>
    match arc.IndexOfChunk i with
    | .error e => { bytes := b, err := some e, state := st, loads }
    | .ok idx =>
      let chunk := arc.Chunks.getD idx default
      let st1 : CacheState := { st with locked := true }
      match lookupCache st1.cache chunk.ShaSum with
      | some cd =>
        decodeArchiveDataLoop ext repo arc rest (b ++ cd)
          { st1 with locked := false } loads
      | none =>
        match loadChunk ext repo chunk with
        | .error e => { bytes := b, err := some e, state := st1, loads := loads + 1 }
        | .ok cd =>
          decodeArchiveDataLoop ext repo arc rest (b ++ cd)
            { cache := insertCache st1.cache chunk.ShaSum cd, locked := false }
            (loads + 1)

/-- Translation of `DecodeArchiveData(repository, arc)` from `decode.go`: for a `File`
archive, walk the logical chunk indices through the cache; the stats are
filled in only after a fully successful loop. -/
def DecodeArchiveData (ext : Externals) (repo : Repository) (arc : Archive)
    (st : CacheState) : DataRun × Stats :=
  if arc.AType = .File then
    let r := decodeArchiveDataLoop ext repo arc
      (List.range arc.Chunks.length) [] st 0
    match r.err with
    | some _ => (r, {})
    | none =>
      (r, { Files := 1, Size := arc.Size, StorageSize := arc.StorageSize,
            Transferred := arc.Size })
  else
    ({ bytes := [], err := none, state := st, loads := 0 }, {})

/-- The filesystem calls `decode.go` makes (`os.MkdirAll`, `os.Symlink`,
`os.OpenFile`, `File.Write`, `os.Chtimes`, `os.Lchown`), as an oracle
giving each call's outcome from its arguments.  `write` covers a `Write`
on the file opened at the given path. -/
structure FSOps where
  mkdirAll : String → Nat → Except String Unit
  symlink : String → String → Except String Unit
  openFile : String → Nat → Except String Unit
  write : String → Bytes → Except String Unit
  chtimes : String → Int → Except String Unit
  lchown : String → Nat → Nat → Except String Unit

/-- The result `os.Lchown(path, int(arc.UID), int(arc.GID))` returned at
the end of `DecodeArchive`, as an optional error. -/
def lchownResult (fs : FSOps) (path : String) (arc : Archive) :
    Option DecodeError :=
  match fs.lchown path arc.UID arc.GID with
  | .ok _ => none
  | .error e => some (.external e)

/-- The chunk loop of `DecodeArchive`'s `File` branch over the remaining
logical indices: resolve via `IndexOfChunk`, `loadChunk`, `f.Write`, bump
the transferred counters and emit a progress event.  Returns the events
emitted, the byte slices successfully written (in order), and the error
that stopped the loop, if any. -/
def decodeArchiveFileLoop (ext : Externals) (fs : FSOps)
    (repo : Repository) (arc : Archive) (path : String) :
    List Nat → Progress → List Progress × List Bytes × Option DecodeError
  | [], _ => ([], [], none)
  | i :: rest, p =>
    match arc.IndexOfChunk i with
    | .error e => ([], [], some e)
    | .ok idx =>
      let chunk := arc.Chunks.getD idx default
      match loadChunk ext repo chunk with
      | .error e => ([], [], some e)
      | .ok b =>
        match fs.write path b with
        | .error e => ([], [], some (.external e))
        | .ok _ =>
          let p1 : Progress :=
            { p with
              TotalStatistics :=
                { p.TotalStatistics with
                  Transferred := p.TotalStatistics.Transferred + b.length }
              CurrentItemStats :=
                { p.CurrentItemStats with
                  Transferred := p.CurrentItemStats.Transferred + b.length } }
          let (evs, ws, res) :=
            decodeArchiveFileLoop ext fs repo arc path rest p1
          (p1 :: evs, b :: ws, res)

/-- Translation of `DecodeArchive(progress, repository, arc, path)` from `decode.go`,
with the progress channel modelled as the list of events sent, the open
file as the list of byte slices written, and the function's returned
error as an `Option`.  The `Directory` branch drops the result of
`os.MkdirAll(path, arc.Mode)` and the `SymLink` branch the result of
`os.Symlink(arc.PointsTo, path)`, exactly as the source does; the
`File` branch creates the parent directory (mode 0755 = 493), opens the
file, runs the chunk loop, discards `f.Sync()`/`f.Close()` results,
restores the modification time, and every branch ends by returning the
result of `os.Lchown(path, int(arc.UID), int(arc.GID))`. -/
def DecodeArchiveM (ext : Externals) (fs : FSOps) (repo : Repository)
    (arc : Archive) (path : String) :
    List Progress × List Bytes × Option DecodeError :=
  let p := newProgress arc
  match arc.AType with
  | .Directory =>
    let _ := fs.mkdirAll path arc.Mode
    let p1 : Progress :=
      { p with TotalStatistics := { p.TotalStatistics with Dirs := p.TotalStatistics.Dirs + 1 } }
    ([p1], [], lchownResult fs path arc)
  | .SymLink =>
    let _ := fs.symlink arc.PointsTo path
    let p1 : Progress :=
      { p with TotalStatistics := { p.TotalStatistics with SymLinks := p.TotalStatistics.SymLinks + 1 } }
    ([p1], [], lchownResult fs path arc)
  | .File =>
    let p1 : Progress :=
      { p with TotalStatistics :=
        { p.TotalStatistics with
          Files := p.TotalStatistics.Files + 1
          Size := arc.Size
          StorageSize := arc.StorageSize } }
    match fs.mkdirAll (ext.dir path) 493 with
    | .error e => ([p1], [], some (.external e))
    | .ok _ =>
      match fs.openFile path arc.Mode with
      | .error e => ([p1], [], some (.external e))
      | .ok _ =>
        let (evs, ws, res) :=
          decodeArchiveFileLoop ext fs repo arc path
            (List.range arc.Chunks.length) p1
        match res with
        | some e => (p1 :: evs, ws, some e)
        | none =>
          match fs.chtimes path arc.ModTime with
          | .error e => (p1 :: evs, ws, some (.external e))
          | .ok _ => (p1 :: evs, ws, lchownResult fs path arc)

/-- The events of `DecodeArchive` on an archive of a snapshot rooted at
`dst` (`path := filepath.Join(dst, arc.Path)`). -/
def archiveEvents (ext : Externals) (fs : FSOps) (repo : Repository)
    (dst : String) (arc : Archive) : List Progress :=
  (DecodeArchiveM ext fs repo arc (ext.joinPath dst arc.Path)).1

/-- The returned error of `DecodeArchive` on an archive of a snapshot
rooted at `dst`. -/
def archiveResult (ext : Externals) (fs : FSOps) (repo : Repository)
    (dst : String) (arc : Archive) : Option DecodeError :=
  (DecodeArchiveM ext fs repo arc (ext.joinPath dst arc.Path)).2.2

/-- The goroutine body of `DecodeSnapshot(repository, snapshot, dst)` from
`decode.go`, with the progress channel modelled as the finite list of
events sent before `close(prog)`: archives are processed in stored order;
the first failing archive's error is sent as a `newProgressError` event
and the loop breaks; then the channel is closed (the end of the list). -/
def DecodeSnapshotEvents (ext : Externals) (fs : FSOps) (repo : Repository) :
    List Archive → String → List Progress
  | [], _ => []
  | arc :: rest, dst =>
    let r := DecodeArchiveM ext fs repo arc (ext.joinPath dst arc.Path)
    match r.2.2 with
    | some e => r.1 ++ [newProgressError e]
    | none => r.1 ++ DecodeSnapshotEvents ext fs repo rest dst

/-- Modelled from the spec: `ChunkForOffset(offset)` (declared outside
`decode.go`) "returns `(chunkIndex, internalOffset)` such that `offset`
falls inside the chunk at that logical index", walking the chunks in
logical order by their plaintext `Size`; an offset outside the file yields
`SeekError{offset}` (the spec's error table: raised by the reader's
offset resolution). -/
def Archive.ChunkForOffset (arc : Archive) (offset : Nat) :
    Except DecodeError (Nat × Nat) :=
  go (List.range arc.Chunks.length) offset
where
  go : List Nat → Nat → Except DecodeError (Nat × Nat)
    | [], _ => .error (.seekError offset)
    | i :: rest, rem =>
      match arc.IndexOfChunk i with
      | .error e => .error e
      | .ok idx =>
        let c := arc.Chunks.getD idx default
        if rem < c.Size then .ok (i, rem) else go rest (rem - c.Size)

/-- The outcome of `ReadArchive`: a normal return of `(&b, err)`, a
`panic(err)` (whose argument is `nil`, modelled as `none`, when the
bytes ran empty with no load error), or the Go runtime panic raised by
slicing `(*cd)[internalOffset:]` out of bounds. -/
inductive ReadResult where
  | ret : Bytes → Option DecodeError → ReadResult
  | panicked : Option DecodeError → ReadResult
  | slicePanic : ReadResult
deriving DecidableEq, Repr

/-- The `for len(b) < size` loop of `ReadArchive`: fetch the needed chunk
through `readArchiveChunk`, `panic(err)` when the fetch errored or
produced no bytes, slice off `internalOffset`, append at most
`size - len(b)` bytes, and continue with the next part at internal
offset 0. -/
def readLoop (ext : Externals) (repo : Repository) (arc : Archive)
    (size : Nat) (neededPart internalOffset : Nat) (b : Bytes)
    (st : CacheState) : ReadResult × CacheState :=
  if b.length < size then
    if _h : arc.Chunks.length ≤ neededPart then (.ret b none, st)
    else
      let r := readArchiveChunk ext repo arc neededPart st
      match r.err with
      | some e => (.panicked (some e), r.state)
      | none =>
        if r.bytes.length = 0 then (.panicked none, r.state)
        else if r.bytes.length < internalOffset then (.slicePanic, r.state)
        else
          let d := r.bytes.drop internalOffset
          if d.length = 0 then (.panicked none, r.state)
          else
            let b1 :=
              if size < d.length + b.length then b ++ d.take (size - b.length)
              else b ++ d
            readLoop ext repo arc size (neededPart + 1) 0 b1 r.state
  else (.ret b none, st)
termination_by arc.Chunks.length - neededPart
decreasing_by simp_wf; omega

/-- Translation of `ReadArchive(repository, arc, offset, size)` from `decode.go`: for a
`File` archive, resolve the starting chunk and internal offset, run the
accumulation loop, and return the bytes.  The speculative background
prefetch of the next chunk (`go func() { readArchiveChunk(...) }()`) is a
detached goroutine whose effect is not part of this sequential result. -/
def ReadArchive (ext : Externals) (repo : Repository) (arc : Archive)
    (offset size : Nat) (st : CacheState) : ReadResult × CacheState :=
  if arc.AType = .File then
    match arc.ChunkForOffset offset with
    | .error e => (.ret [] (some e), st)
    | .ok (neededPart, internalOffset) =>
      readLoop ext repo arc size neededPart internalOffset [] st
  else
    (.ret [] none, st)

/-- The decoded plaintext of the chunk with logical index `i` of an
archive: resolve the storage position via `IndexOfChunk`, then load and
decode that chunk (steps (a) and (b) of the `File` loop of
`DecodeArchive`). -/
def logicalChunkPlain (ext : Externals) (repo : Repository) (arc : Archive)
    (i : Nat) : Except DecodeError Bytes :=
  (arc.IndexOfChunk i).bind fun idx =>
    loadChunk ext repo (arc.Chunks.getD idx default)

/-! Concrete instantiations of the external collaborators, used to
evaluate the theorems below on closed inputs. -/

/-- An identity-like instantiation of the externals: decryption and
decompression pass bytes through, every digest is `"h"`, and the
Reed-Solomon codec reconstructs by passing the shard array through and
joins to the single byte `7`. -/
def extId : Externals :=
  { Decrypt := fun b _ => .ok b
    Uncompress := fun b => .ok b
    sha256hex := fun _ => "h"
    rsNew := fun _ _ =>
      .ok { Reconstruct := fun p => .ok p, Join := fun _ _ => .ok [7] }
    dir := fun s => s
    joinPath := fun a b => a ++ "/" ++ b }

/-- Externals whose decryption always fails authentication. -/
def extAuthFail : Externals :=
  { extId with
    Decrypt := fun _ _ => .error "cipher: message authentication failed" }

/-- A backend that serves every shard request with the shard index. -/
def backAllOk : Backend := ⟨fun _ i => .ok [i]⟩

/-- A backend with every shard unavailable. -/
def backNone : Backend := ⟨fun _ _ => .error "unavailable"⟩

/-- A backend that serves empty byte slices. -/
def backEmpty : Backend := ⟨fun _ _ => .ok []⟩

/-- Repositories over the three example backends. -/
def repoOk : Repository := ⟨"pw", backAllOk⟩

def repoFail : Repository := ⟨"pw", backNone⟩

def repoEmpty : Repository := ⟨"pw", backEmpty⟩

/-- A single-blob chunk whose digest under `extId` matches. -/
def chunkPlain : Chunk :=
  { Size := 2, DataParts := 1, ParityParts := 0, ShaSum := "s1",
    DecryptedShaSum := "h", Encrypted := .EncryptionNone,
    Compressed := .CompressionNone, LogicalIndex := 0 }

/-- A single-blob chunk whose stored plaintext digest never matches. -/
def chunkBad : Chunk :=
  { chunkPlain with ShaSum := "s2", DecryptedShaSum := "x" }

/-- An AES-encrypted single-blob chunk. -/
def chunkAES : Chunk :=
  { chunkPlain with ShaSum := "s3", Encrypted := .EncryptionAES }

/-- An erasure-coded chunk with 2 data and 1 parity shards. -/
def chunkRS : Chunk :=
  { chunkPlain with ShaSum := "s4", DataParts := 2, ParityParts := 1 }

/-- A one-chunk `File` archive over `chunkPlain`. -/
def arcFile1 : Archive :=
  { AType := .File, Path := "f", Mode := 420, UID := 1, GID := 2,
    ModTime := 0, PointsTo := "", Size := 2, StorageSize := 2,
    Chunks := [chunkPlain] }

/-- A one-chunk `File` archive whose chunk fails the checksum. -/
def arcBad : Archive :=
  { arcFile1 with Path := "g", Chunks := [chunkBad] }

/-- A `Directory` archive. -/
def arcDir : Archive :=
  { arcFile1 with AType := .Directory, Path := "d", Chunks := [] }

/-- A `SymLink` archive. -/
def arcLink : Archive :=
  { arcFile1 with
    AType := .SymLink
    Path := "l"
    PointsTo := "/etc/passwd"
    Chunks := [] }

/-- A filesystem oracle on which every call succeeds. -/
def fsOk : FSOps :=
  { mkdirAll := fun _ _ => .ok ()
    symlink := fun _ _ => .ok ()
    openFile := fun _ _ => .ok ()
    write := fun _ _ => .ok ()
    chtimes := fun _ _ => .ok ()
    lchown := fun _ _ _ => .ok () }

/-- A filesystem oracle on which only `lchown` fails. -/
def fsLchownFail : FSOps :=
  { fsOk with lchown := fun _ _ _ => .error "lchown failed" }

/-- The empty, unlocked package state. -/
def stEmpty : CacheState := ⟨[], false⟩

/-- A package state whose cache already holds `chunkPlain`'s plaintext
under its `ShaSum`. -/
def stCached : CacheState := ⟨[("s1", [9])], false⟩

/-- C1: for every chunk and input byte slice, the codec decode operation
applies its steps in the fixed order — (1) authenticated decryption when
`chunk.Encrypted = AES`, (2) gzip decompression when
`chunk.Compressed = GZip`, (3) SHA-256 lowercase-hex digest comparison
against `chunk.DecryptedShaSum`, failing with
`CheckSumError{"sha256", expected, got}` on mismatch and returning the
decoded plaintext on success: `decodeChunk` coincides with the spec-side
pipeline `decodeChunkSpec`. -/
theorem decodeChunk_follows_spec (ext : Externals) (repo : Repository)
    (chunk : Chunk) (b : Bytes) :
    decodeChunk ext repo chunk b = decodeChunkSpec ext repo chunk b := by
  have hsum : ∀ c : Bytes, decodeChunk.decodeChunkSum ext chunk c =
      (if ext.sha256hex c = chunk.DecryptedShaSum then Except.ok c
       else Except.error
         (.checkSum "sha256" chunk.DecryptedShaSum (ext.sha256hex c))) := by
    intro c
    unfold decodeChunk.decodeChunkSum
    by_cases h : ext.sha256hex c = chunk.DecryptedShaSum
    · simp [h]
    · have h' : chunk.DecryptedShaSum ≠ ext.sha256hex c := fun hh => h hh.symm
      simp [h, h']
  unfold decodeChunk decodeChunkSpec decodeChunk.decodeChunkRest
  cases hE : chunk.Encrypted <;> cases hC : chunk.Compressed <;>
    simp only [hE, hC] <;>
    cases hD : ext.Decrypt b repo.Password <;>
      simp [hD, hsum, Except.mapError, bind, Except.bind, pure, Except.pure,
        throw, throwThe, MonadExceptOf.throw] <;>
      (try cases hU : ext.Uncompress _ <;>
        simp [hU, hsum, Except.mapError, bind, Except.bind, pure, Except.pure])

/-- C3: for every chunk with `Encrypted = AES`, if authenticated
decryption of the input fails with error `e`, then `decodeChunk` returns
exactly that error (wrapped verbatim as its message), and the result is
the same for every choice of decompressor and hash function — i.e. no
decompression and no hash check touch the unauthenticated bytes. -/
theorem decodeChunk_auth_gate (ext : Externals) (repo : Repository)
    (chunk : Chunk) (b : Bytes) (e : String)
    (hE : chunk.Encrypted = .EncryptionAES)
    (hD : ext.Decrypt b repo.Password = .error e) :
    decodeChunk ext repo chunk b = .error (.external e) ∧
    ∀ (U : Bytes → Except String Bytes) (s : Bytes → String),
      decodeChunk { ext with Uncompress := U, sha256hex := s } repo chunk b =
        .error (.external e) := by
  constructor
  · unfold decodeChunk
    rw [hE, hD]
  · intro U s
    unfold decodeChunk
    rw [hE]
    simp only [hD]

/-- Witness for C3 at a concrete input: an AES chunk under the
always-failing decryptor surfaces `cipher: message authentication failed`
verbatim. -/
theorem decodeChunk_auth_gate_witness :
    decodeChunk extAuthFail repoOk chunkAES [1, 2] =
      .error (.external "cipher: message authentication failed") :=
  (decodeChunk_auth_gate extAuthFail repoOk chunkAES [1, 2]
    "cipher: message authentication failed" (by decide) rfl).1

/-- Shard-loop lemma: while fewer than `DataParts` of the remaining (and
already counted) shards are fetchable, the loop never reaches the
join branch and ends in a `DataReconstructionError` counting every
fetchable shard. -/
theorem loadChunkLoop_too_few (ext : Externals) (repo : Repository)
    (chunk : Chunk) (enc : RSEnc) :
    ∀ (l : List Nat) (pars : List (Option Bytes)) (pf pm : Nat),
      pf + l.countP (shardOk repo chunk) < chunk.DataParts →
      loadChunkLoop ext repo chunk enc l pars pf pm =
        .error (.reconstruction chunk (pf + l.countP (shardOk repo chunk))
          (goUintSub chunk.DataParts (pf + l.countP (shardOk repo chunk)))) := by
  intro l
  induction l with
  | nil =>
    intro pars pf pm _
    simp [loadChunkLoop, List.countP_nil]
  | cons i rest ih =>
    intro pars pf pm h
    simp only [loadChunkLoop]
    cases hL : repo.Backend.LoadChunk chunk i with
    | error e =>
      have hs : shardOk repo chunk i = false := by simp [shardOk, hL]
      have hc : (i :: rest).countP (shardOk repo chunk) =
          rest.countP (shardOk repo chunk) := by
        simp [List.countP_cons, hs]
      rw [hc] at h ⊢
      exact ih (pars.set i none) pf (pm + 1) h
    | ok d =>
      have hs : shardOk repo chunk i = true := by simp [shardOk, hL]
      have hc : (i :: rest).countP (shardOk repo chunk) =
          rest.countP (shardOk repo chunk) + 1 := by
        simp [List.countP_cons, hs]
      rw [hc] at h ⊢
      dsimp only
      rw [if_neg (by omega)]
      have := ih (pars.set i (some d)) (pf + 1) pm (by omega)
      rw [this]
      have harith : pf + 1 + rest.countP (shardOk repo chunk) =
          pf + (rest.countP (shardOk repo chunk) + 1) := by omega
      rw [harith]

/-- Shard-loop lemma: if the remaining shards bring the fetchable total
up to `DataParts`, and reconstruction, join and decode all succeed on
whatever they are given, the loop succeeds. -/
theorem loadChunkLoop_enough (ext : Externals) (repo : Repository)
    (chunk : Chunk) (enc : RSEnc)
    (hrec : ∀ p, ∃ q, enc.Reconstruct p = .ok q)
    (hjoin : ∀ p, ∃ b, enc.Join p chunk.Size = .ok b)
    (hdec : ∀ b, ∃ d, decodeChunk ext repo chunk b = .ok d) :
    ∀ (l : List Nat) (pars : List (Option Bytes)) (pf pm : Nat),
      pf < chunk.DataParts →
      chunk.DataParts ≤ pf + l.countP (shardOk repo chunk) →
      ∃ d, loadChunkLoop ext repo chunk enc l pars pf pm = .ok d := by
  intro l
  induction l with
  | nil =>
    intro pars pf pm h1 h2
    rw [List.countP_nil] at h2
    omega
  | cons i rest ih =>
    intro pars pf pm h1 h2
    simp only [loadChunkLoop]
    cases hL : repo.Backend.LoadChunk chunk i with
    | error e =>
      have hs : shardOk repo chunk i = false := by simp [shardOk, hL]
      have hc : (i :: rest).countP (shardOk repo chunk) =
          rest.countP (shardOk repo chunk) := by
        simp [List.countP_cons, hs]
      rw [hc] at h2
      exact ih (pars.set i none) pf (pm + 1) h1 h2
    | ok d =>
      have hs : shardOk repo chunk i = true := by simp [shardOk, hL]
      have hc : (i :: rest).countP (shardOk repo chunk) =
          rest.countP (shardOk repo chunk) + 1 := by
        simp [List.countP_cons, hs]
      rw [hc] at h2
      dsimp only
      by_cases hN : chunk.DataParts ≤ pf + 1
      · rw [if_pos hN]
        by_cases hpm : 0 < pm
        · rw [if_pos hpm]
          obtain ⟨q, hq⟩ := hrec (pars.set i (some d))
          rw [hq]
          dsimp only
          obtain ⟨bb, hb⟩ := hjoin q
          rw [hb]
          exact hdec bb
        · rw [if_neg hpm]
          obtain ⟨bb, hb⟩ := hjoin (pars.set i (some d))
          rw [hb]
          exact hdec bb
      · rw [if_neg hN]
        exact ih (pars.set i (some d)) (pf + 1) pm (by omega) (by omega)

/-- C2: for a chunk with `DataParts = N > 0` and `ParityParts = M > 0`
(and an ideal Reed-Solomon codec and valid chunk contents: reconstruction,
join and decode succeed on what they are given), loading the chunk
succeeds iff at least `N` of the `N+M` shards are fetchable from the
backend; when only `k < N` are fetchable, `loadChunk` returns a
`DataReconstructionError` with `BlocksFound = k` and
`FailedBackends = N - k`. -/
theorem loadChunk_erasure_tolerance (ext : Externals) (repo : Repository)
    (chunk : Chunk) (enc : RSEnc)
    (hM : 0 < chunk.ParityParts)
    (hN : 0 < chunk.DataParts)
    (hN64 : chunk.DataParts < 2 ^ 64)
    (hnew : ext.rsNew chunk.DataParts chunk.ParityParts = .ok enc)
    (hrec : ∀ p, ∃ q, enc.Reconstruct p = .ok q)
    (hjoin : ∀ p, ∃ b, enc.Join p chunk.Size = .ok b)
    (hdec : ∀ b, ∃ d, decodeChunk ext repo chunk b = .ok d) :
    ((∃ d, loadChunk ext repo chunk = .ok d) ↔
      chunk.DataParts ≤ fetchCount repo chunk) ∧
    (fetchCount repo chunk < chunk.DataParts →
      loadChunk ext repo chunk =
        .error (.reconstruction chunk (fetchCount repo chunk)
          (chunk.DataParts - fetchCount repo chunk))) := by
  have hload : loadChunk ext repo chunk =
      loadChunkLoop ext repo chunk enc
        (List.range (chunk.DataParts + chunk.ParityParts))
        (List.replicate (chunk.DataParts + chunk.ParityParts) none) 0 0 := by
    unfold loadChunk
    rw [if_pos hM, hnew]
  have hcount : fetchCount repo chunk =
      0 + (List.range (chunk.DataParts + chunk.ParityParts)).countP
        (shardOk repo chunk) := by
    rw [Nat.zero_add]; rfl
  constructor
  · constructor
    · intro ⟨d, hd⟩
      by_contra hk
      push_neg at hk
      rw [hload, loadChunkLoop_too_few ext repo chunk enc _ _ 0 0
        (by rw [← hcount]; exact hk)] at hd
      exact Except.noConfusion hd
    · intro hk
      rw [hload]
      exact loadChunkLoop_enough ext repo chunk enc hrec hjoin hdec _ _ 0 0 hN
        (by rw [← hcount]; exact hk)
  · intro hk
    rw [hload, loadChunkLoop_too_few ext repo chunk enc _ _ 0 0
      (by rw [← hcount]; exact hk), ← hcount]
    have h64 : (2 : Nat) ^ 64 = 18446744073709551616 := by norm_num
    have : goUintSub chunk.DataParts (fetchCount repo chunk) =
        chunk.DataParts - fetchCount repo chunk := by
      unfold goUintSub
      rw [h64]
      rw [h64] at hN64
      omega
    rw [this]

/-- Witness for C2 at a concrete input: `chunkRS` has `N = 2, M = 1`, the
backend serves all three shards, and loading succeeds. -/
theorem loadChunk_erasure_tolerance_witness :
    ∃ d, loadChunk extId repoOk chunkRS = .ok d :=
  ((loadChunk_erasure_tolerance extId repoOk chunkRS
      { Reconstruct := fun p => .ok p, Join := fun _ _ => .ok [7] }
      (by decide) (by decide) (by decide) rfl
      (fun p => ⟨p, rfl⟩) (fun p => ⟨[7], rfl⟩)
      (fun b => ⟨b, rfl⟩)).1).mpr (by decide)

/-- File-branch loop lemma for `DecodeArchive`: when the chunk loop completes
without error, the byte slices it wrote are exactly the decoded
plaintexts of the logical indices it walked, in that order. -/
theorem decodeArchiveFileLoop_writes (ext : Externals) (fs : FSOps)
    (repo : Repository) (arc : Archive) (path : String) :
    ∀ (l : List Nat) (p : Progress),
      (decodeArchiveFileLoop ext fs repo arc path l p).2.2 = none →
      l.mapM (logicalChunkPlain ext repo arc) =
        .ok (decodeArchiveFileLoop ext fs repo arc path l p).2.1 := by
  intro l
  induction l with
  | nil =>
    intro p _
    rfl
  | cons i rest ih =>
    intro p hres
    cases hIdx : arc.IndexOfChunk i with
    | error e =>
      simp only [decodeArchiveFileLoop, hIdx] at hres
      exact Option.noConfusion hres
    | ok idx =>
      cases hLoad : loadChunk ext repo (arc.Chunks.getD idx default) with
      | error e =>
        simp only [decodeArchiveFileLoop, hIdx, hLoad] at hres
        exact Option.noConfusion hres
      | ok b =>
        cases hW : fs.write path b with
        | error e =>
          simp only [decodeArchiveFileLoop, hIdx, hLoad, hW] at hres
          exact Option.noConfusion hres
        | ok u =>
          have hplain : logicalChunkPlain ext repo arc i = .ok b := by
            unfold logicalChunkPlain
            rw [hIdx]
            exact hLoad
          simp only [decodeArchiveFileLoop, hIdx, hLoad, hW] at hres ⊢
          rw [List.mapM_cons, hplain, ih _ hres]
          rfl

/-- C4: for every `File` archive, a successful `DecodeArchive` writes to
the target file exactly the decoded plaintexts of the chunks taken in
logical index order `0, 1, ..., len-1` (each resolved through
`IndexOfChunk`), in that order and nothing else — so the on-disk content
is their concatenation and chunks are never written out of order. -/
theorem DecodeArchive_writes_logical_concat (ext : Externals) (fs : FSOps)
    (repo : Repository) (arc : Archive) (path : String)
    (hT : arc.AType = .File)
    (hres : (DecodeArchiveM ext fs repo arc path).2.2 = none) :
    (List.range arc.Chunks.length).mapM (logicalChunkPlain ext repo arc) =
      .ok (DecodeArchiveM ext fs repo arc path).2.1 := by
  unfold DecodeArchiveM at hres ⊢
  rw [hT] at hres ⊢
  dsimp only at hres ⊢
  cases hMk : fs.mkdirAll (ext.dir path) 493 with
  | error e =>
    simp only [hMk] at hres
    exact Option.noConfusion hres
  | ok u =>
    simp only [hMk] at hres ⊢
    cases hOp : fs.openFile path arc.Mode with
    | error e =>
      simp only [hOp] at hres
      exact Option.noConfusion hres
    | ok u2 =>
      simp only [hOp] at hres ⊢
      cases hRes : (decodeArchiveFileLoop ext fs repo arc path
          (List.range arc.Chunks.length)
          { newProgress arc with
            TotalStatistics :=
              { (newProgress arc).TotalStatistics with
                Files := (newProgress arc).TotalStatistics.Files + 1
                Size := arc.Size
                StorageSize := arc.StorageSize } }).2.2 with
      | some e =>
        simp only [hRes] at hres
        exact Option.noConfusion hres
      | none =>
        simp only [hRes] at hres ⊢
        cases hCh : fs.chtimes path arc.ModTime with
        | error e =>
          simp only [hCh] at hres
          exact Option.noConfusion hres
        | ok u3 =>
          simp only [hCh] at hres ⊢
          exact decodeArchiveFileLoop_writes ext fs repo arc path _ _ hRes

/-- Witness for C4 at a concrete input: the one-chunk archive `arcFile1`
decodes successfully and the written bytes are its logical-order
plaintexts. -/
theorem DecodeArchive_writes_logical_concat_witness :
    (List.range arcFile1.Chunks.length).mapM
        (logicalChunkPlain extId repoOk arcFile1) =
      .ok (DecodeArchiveM extId fsOk repoOk arcFile1 "f").2.1 :=
  DecodeArchive_writes_logical_concat extId fsOk repoOk arcFile1 "f" rfl
    (by decide)

/-- The `File` chunk loop only emits stat-bumped copies of its incoming
progress value, so all its events keep an empty error field. -/
theorem decodeArchiveFileLoop_events_ok (ext : Externals) (fs : FSOps)
    (repo : Repository) (arc : Archive) (path : String) :
    ∀ (l : List Nat) (p : Progress), p.Error = none →
      ∀ q ∈ (decodeArchiveFileLoop ext fs repo arc path l p).1,
        q.Error = none := by
  intro l
  induction l with
  | nil =>
    intro p hp q hq
    simp [decodeArchiveFileLoop] at hq
  | cons i rest ih =>
    intro p hp q hq
    cases hIdx : arc.IndexOfChunk i with
    | error e =>
      simp only [decodeArchiveFileLoop, hIdx] at hq
      simp at hq
    | ok idx =>
      cases hLoad : loadChunk ext repo (arc.Chunks.getD idx default) with
      | error e =>
        simp only [decodeArchiveFileLoop, hIdx, hLoad] at hq
        simp at hq
      | ok b =>
        cases hW : fs.write path b with
        | error e =>
          simp only [decodeArchiveFileLoop, hIdx, hLoad, hW] at hq
          simp at hq
        | ok u =>
          simp only [decodeArchiveFileLoop, hIdx, hLoad, hW,
            List.mem_cons] at hq
          rcases hq with hq | hq
          · rw [hq]
            exact hp
          · apply ih _ _ q hq
            exact hp

/-- Every event `DecodeArchive` itself sends is error-free (the error
event of a failing archive is added by `DecodeSnapshot`, not here). -/
theorem DecodeArchiveM_events_ok (ext : Externals) (fs : FSOps)
    (repo : Repository) (arc : Archive) (path : String) :
    ∀ q ∈ (DecodeArchiveM ext fs repo arc path).1, q.Error = none := by
  intro q hq
  unfold DecodeArchiveM at hq
  cases hT : arc.AType with
  | Directory =>
    rw [hT] at hq
    simp only [List.mem_singleton] at hq
    rw [hq]
    rfl
  | SymLink =>
    rw [hT] at hq
    simp only [List.mem_singleton] at hq
    rw [hq]
    rfl
  | File =>
    rw [hT] at hq
    dsimp only at hq
    cases hMk : fs.mkdirAll (ext.dir path) 493 with
    | error e =>
      simp only [hMk, List.mem_singleton] at hq
      rw [hq]
      rfl
    | ok u =>
      simp only [hMk] at hq
      cases hOp : fs.openFile path arc.Mode with
      | error e =>
        simp only [hOp, List.mem_singleton] at hq
        rw [hq]
        rfl
      | ok u2 =>
        simp only [hOp] at hq
        cases hRes : (decodeArchiveFileLoop ext fs repo arc path
            (List.range arc.Chunks.length)
            { newProgress arc with
              TotalStatistics :=
                { (newProgress arc).TotalStatistics with
                  Files := (newProgress arc).TotalStatistics.Files + 1
                  Size := arc.Size
                  StorageSize := arc.StorageSize } }).2.2 with
        | some e =>
          simp only [hRes, List.mem_cons] at hq
          rcases hq with hq | hq
          · rw [hq]; rfl
          · exact decodeArchiveFileLoop_events_ok ext fs repo arc path _ _ rfl q hq
        | none =>
          simp only [hRes] at hq
          cases hCh : fs.chtimes path arc.ModTime with
          | error e =>
            simp only [hCh, List.mem_cons] at hq
            rcases hq with hq | hq
            · rw [hq]; rfl
            · exact decodeArchiveFileLoop_events_ok ext fs repo arc path _ _ rfl q hq
          | ok u3 =>
            simp only [hCh, List.mem_cons] at hq
            rcases hq with hq | hq
            · rw [hq]; rfl
            · exact decodeArchiveFileLoop_events_ok ext fs repo arc path _ _ rfl q hq

/-- In the snapshot event stream, every event except possibly the final
one is error-free: an error record is never followed by anything. -/
theorem snapshotEvents_dropLast_ok (ext : Externals) (fs : FSOps)
    (repo : Repository) (dst : String) :
    ∀ (archives : List Archive) (q : Progress),
      q ∈ (DecodeSnapshotEvents ext fs repo archives dst).dropLast →
      q.Error = none := by
  intro archives
  induction archives with
  | nil =>
    intro q hq
    simp [DecodeSnapshotEvents] at hq
  | cons arc rest ih =>
    intro q hq
    simp only [DecodeSnapshotEvents] at hq
    cases hr : (DecodeArchiveM ext fs repo arc (ext.joinPath dst arc.Path)).2.2 with
    | some e =>
      rw [hr] at hq
      dsimp only at hq
      rw [List.dropLast_append_cons, List.dropLast_single,
        List.append_nil] at hq
      exact DecodeArchiveM_events_ok ext fs repo arc _ q hq
    | none =>
      rw [hr] at hq
      dsimp only at hq
      cases hE : DecodeSnapshotEvents ext fs repo rest dst with
      | nil =>
        rw [hE, List.append_nil, List.dropLast_eq_take] at hq
        exact DecodeArchiveM_events_ok ext fs repo arc _ q
          (List.take_subset _ _ hq)
      | cons x xs =>
        rw [hE, List.dropLast_append_cons, List.mem_append] at hq
        rcases hq with hq | hq
        · exact DecodeArchiveM_events_ok ext fs repo arc _ q hq
        · apply ih
          rw [hE]
          exact hq

/-- When every archive succeeds, the snapshot stream is exactly the
concatenation of the per-archive event lists, in stored order. -/
theorem snapshotEvents_all_ok (ext : Externals) (fs : FSOps)
    (repo : Repository) (dst : String) :
    ∀ (archives : List Archive),
      (∀ a ∈ archives, archiveResult ext fs repo dst a = none) →
      DecodeSnapshotEvents ext fs repo archives dst =
        (archives.map (archiveEvents ext fs repo dst)).flatten := by
  intro archives
  induction archives with
  | nil =>
    intro _
    rfl
  | cons arc rest ih =>
    intro h
    have hr : archiveResult ext fs repo dst arc = none :=
      h arc (List.mem_cons_self arc rest)
    simp only [DecodeSnapshotEvents]
    unfold archiveResult at hr
    rw [hr]
    dsimp only
    rw [List.map_cons, List.flatten_cons,
      ih (fun a ha => h a (List.mem_cons_of_mem arc ha))]
    rfl

/-- When the archives before `a` succeed and `a` fails with `e`, the
snapshot stream is the successful archives' events, then `a`'s own
events, then exactly one error event carrying `e` — and nothing for any
archive after `a`. -/
theorem snapshotEvents_first_failure (ext : Externals) (fs : FSOps)
    (repo : Repository) (dst : String) :
    ∀ (pre : List Archive) (a : Archive) (post : List Archive)
      (e : DecodeError),
      (∀ b ∈ pre, archiveResult ext fs repo dst b = none) →
      archiveResult ext fs repo dst a = some e →
      DecodeSnapshotEvents ext fs repo (pre ++ a :: post) dst =
        (pre.map (archiveEvents ext fs repo dst)).flatten ++
          (archiveEvents ext fs repo dst a ++ [newProgressError e]) := by
  intro pre
  induction pre with
  | nil =>
    intro a post e _ ha
    simp only [DecodeSnapshotEvents, List.nil_append]
    unfold archiveResult at ha
    rw [ha]
    dsimp only
    rw [List.map_nil, List.flatten_nil, List.nil_append]
    rfl
  | cons b pre' ih =>
    intro a post e hpre ha
    have hb : archiveResult ext fs repo dst b = none :=
      hpre b (List.mem_cons_self b pre')
    simp only [List.cons_append, DecodeSnapshotEvents]
    unfold archiveResult at hb
    rw [hb]
    dsimp only
    simp only [List.append_eq]
    rw [ih a post e (fun x hx => hpre x (List.mem_cons_of_mem b hx)) ha,
      List.map_cons, List.flatten_cons, List.append_assoc]
    rfl

/-- C5: `DecodeSnapshot` processes archives in stored order; every event
an archive itself emits is error-free; in the whole stream every event
except possibly the last is error-free (so no successful record ever
follows an error record); when all archives succeed the stream is their
event lists concatenated and then closed; and on the first failing
archive the stream is the preceding events, the failing archive's own
events, and exactly one error event carrying that failure — no later
archive is processed — after which the stream closes (the list ends). -/
theorem DecodeSnapshot_halts_on_first_error (ext : Externals) (fs : FSOps)
    (repo : Repository) (dst : String) :
    (∀ (arc : Archive) (q : Progress),
      q ∈ archiveEvents ext fs repo dst arc → q.Error = none) ∧
    (∀ (archives : List Archive) (q : Progress),
      q ∈ (DecodeSnapshotEvents ext fs repo archives dst).dropLast →
      q.Error = none) ∧
    (∀ archives : List Archive,
      (∀ a ∈ archives, archiveResult ext fs repo dst a = none) →
      DecodeSnapshotEvents ext fs repo archives dst =
        (archives.map (archiveEvents ext fs repo dst)).flatten) ∧
    (∀ (pre : List Archive) (a : Archive) (post : List Archive)
      (e : DecodeError),
      (∀ b ∈ pre, archiveResult ext fs repo dst b = none) →
      archiveResult ext fs repo dst a = some e →
      DecodeSnapshotEvents ext fs repo (pre ++ a :: post) dst =
        (pre.map (archiveEvents ext fs repo dst)).flatten ++
          (archiveEvents ext fs repo dst a ++ [newProgressError e])) :=
  ⟨fun arc q hq => DecodeArchiveM_events_ok ext fs repo arc _ q hq,
   snapshotEvents_dropLast_ok ext fs repo dst,
   snapshotEvents_all_ok ext fs repo dst,
   snapshotEvents_first_failure ext fs repo dst⟩

/-- Witness for C5 at a concrete input: with a good directory archive,
then an archive whose chunk fails its checksum, then a further archive,
the stream is the first two archives' events followed by the single
error event; the third archive contributes nothing. -/
theorem DecodeSnapshot_halts_on_first_error_witness :
    DecodeSnapshotEvents extId fsOk repoOk ([arcDir] ++ arcBad :: [arcLink])
      "d" =
      ([arcDir].map (archiveEvents extId fsOk repoOk "d")).flatten ++
        (archiveEvents extId fsOk repoOk "d" arcBad ++
          [newProgressError (.checkSum "sha256" "x" "h")]) :=
  (DecodeSnapshot_halts_on_first_error extId fsOk repoOk "d").2.2.2
    [arcDir] arcBad [arcLink] (.checkSum "sha256" "x" "h")
    (by decide) (by decide)

/-- C6 (refuting evaluation): at a concrete input whose chunk is not in
the cache and whose load fails, both `readArchiveChunk` and
`DecodeArchiveData` return control to the caller with the cache mutex
still held — the miss-failure path of `decode.go` (`return b, stats, err`
/ `return &b, err`) runs before `mutex.Unlock()` is ever reached — so the
lock is not released on every outcome. -/
theorem cache_miss_failure_keeps_mutex_locked :
    (readArchiveChunk extId repoFail arcFile1 0 stEmpty).err =
      some (.external "unavailable") ∧
    (readArchiveChunk extId repoFail arcFile1 0 stEmpty).state.locked = true ∧
    (DecodeArchiveData extId repoFail arcFile1 stEmpty).1.err =
      some (.external "unavailable") ∧
    (DecodeArchiveData extId repoFail arcFile1 stEmpty).1.state.locked =
      true := by
  decide

/-- Inserting a key that was absent preserves every present binding. -/
theorem lookupCache_insert_preserve (c : List (String × Bytes))
    (k s : String) (v cd : Bytes)
    (hk : lookupCache c k = some v) (hs : lookupCache c s = none) :
    lookupCache (insertCache c s cd) k = some v := by
  show (if s = k then some cd else lookupCache c k) = some v
  rcases eq_or_ne s k with h | h
  · rw [h] at hs
    rw [hs] at hk
    exact Option.noConfusion hk
  · rw [if_neg h]
    exact hk

/-- One `readArchiveChunk` step never removes a cache binding. -/
theorem readArchiveChunk_cache_monotone (ext : Externals)
    (repo : Repository) (arc : Archive) (n : Nat) (st : CacheState)
    (k : String) (v : Bytes) (hk : lookupCache st.cache k = some v) :
    lookupCache (readArchiveChunk ext repo arc n st).state.cache k =
      some v := by
  unfold readArchiveChunk
  cases hIdx : arc.IndexOfChunk n with
  | error e => exact hk
  | ok idx =>
    dsimp only
    cases hHit : lookupCache st.cache (arc.Chunks.getD idx default).ShaSum with
    | some cd => exact hk
    | none =>
      dsimp only
      cases hLoad : loadChunk ext repo (arc.Chunks.getD idx default) with
      | error e => exact hk
      | ok cd => exact lookupCache_insert_preserve _ _ _ _ _ hk hHit

/-- The `DecodeArchiveData` loop never removes a cache binding. -/
theorem decodeArchiveDataLoop_cache_monotone (ext : Externals)
    (repo : Repository) (arc : Archive) :
    ∀ (l : List Nat) (b : Bytes) (st : CacheState) (loads : Nat)
      (k : String) (v : Bytes), lookupCache st.cache k = some v →
      lookupCache (decodeArchiveDataLoop ext repo arc l b st loads).state.cache
        k = some v := by
  intro l
  induction l with
  | nil => intro b st loads k v hk; exact hk
  | cons i rest ih =>
    intro b st loads k v hk
    simp only [decodeArchiveDataLoop]
    cases hIdx : arc.IndexOfChunk i with
    | error e => exact hk
    | ok idx =>
      dsimp only
      cases hHit : lookupCache st.cache (arc.Chunks.getD idx default).ShaSum with
      | some cd => exact ih _ _ _ k v hk
      | none =>
        dsimp only
        cases hLoad : loadChunk ext repo (arc.Chunks.getD idx default) with
        | error e => exact hk
        | ok cd =>
          exact ih _ _ _ k v (lookupCache_insert_preserve _ _ _ _ _ hk hHit)

/-- When every chunk the `DecodeArchiveData` loop still has to visit is
already cached, the loop performs no load at all and leaves the cache
untouched. -/
theorem decodeArchiveDataLoop_all_cached (ext : Externals)
    (repo : Repository) (arc : Archive) :
    ∀ (l : List Nat) (b : Bytes) (st : CacheState) (loads : Nat),
      (∀ i ∈ l, ∃ idx, arc.IndexOfChunk i = .ok idx ∧
        ∃ cd, lookupCache st.cache (arc.Chunks.getD idx default).ShaSum =
          some cd) →
      (decodeArchiveDataLoop ext repo arc l b st loads).loads = loads ∧
      (decodeArchiveDataLoop ext repo arc l b st loads).state.cache =
        st.cache ∧
      (decodeArchiveDataLoop ext repo arc l b st loads).err = none := by
  intro l
  induction l with
  | nil =>
    intro b st loads _
    exact ⟨rfl, rfl, rfl⟩
  | cons i rest ih =>
    intro b st loads h
    obtain ⟨idx, hIdx, cd, hHit⟩ := h i (List.mem_cons_self i rest)
    simp only [decodeArchiveDataLoop, hIdx]
    rw [hHit]
    exact ih (b ++ cd) ⟨st.cache, false⟩ loads
      (fun j hj => h j (List.mem_cons_of_mem i hj))

/-- C7: the chunk cache is load-once with no eviction.  (i) A
`readArchiveChunk` hit returns the cached plaintext with zero `loadChunk`
(hence zero backend) invocations and an unchanged cache; (ii) and (iii)
neither a `readArchiveChunk` step nor a whole `DecodeArchiveData` loop
ever removes a binding, so once a `ShaSum` is stored it stays stored; and
(iv) a `DecodeArchiveData` loop over fully-cached chunks performs zero
loads and leaves the cache untouched.  Together: after a chunk's
plaintext is stored under its `ShaSum`, every later read of that `ShaSum`
is a hit and never invokes the backend load sequence again. -/
theorem chunk_cache_load_once (ext : Externals) (repo : Repository) :
    (∀ (arc : Archive) (n : Nat) (st : CacheState) (idx : Nat) (cd : Bytes),
      arc.IndexOfChunk n = .ok idx →
      lookupCache st.cache (arc.Chunks.getD idx default).ShaSum = some cd →
      readArchiveChunk ext repo arc n st =
        { bytes := cd, err := none, state := ⟨st.cache, false⟩,
          loads := 0 }) ∧
    (∀ (arc : Archive) (n : Nat) (st : CacheState) (k : String) (v : Bytes),
      lookupCache st.cache k = some v →
      lookupCache (readArchiveChunk ext repo arc n st).state.cache k =
        some v) ∧
    (∀ (arc : Archive) (l : List Nat) (b : Bytes) (st : CacheState)
      (loads : Nat) (k : String) (v : Bytes),
      lookupCache st.cache k = some v →
      lookupCache
        (decodeArchiveDataLoop ext repo arc l b st loads).state.cache k =
        some v) ∧
    (∀ (arc : Archive) (l : List Nat) (b : Bytes) (st : CacheState)
      (loads : Nat),
      (∀ i ∈ l, ∃ idx, arc.IndexOfChunk i = .ok idx ∧
        ∃ cd, lookupCache st.cache (arc.Chunks.getD idx default).ShaSum =
          some cd) →
      (decodeArchiveDataLoop ext repo arc l b st loads).loads = loads ∧
      (decodeArchiveDataLoop ext repo arc l b st loads).state.cache =
        st.cache ∧
      (decodeArchiveDataLoop ext repo arc l b st loads).err = none) := by
  refine ⟨?_, ?_, ?_, ?_⟩
  · intro arc n st idx cd hIdx hHit
    unfold readArchiveChunk
    simp only [hIdx]
    rw [hHit]
  · intro arc n st k v hk
    exact readArchiveChunk_cache_monotone ext repo arc n st k v hk
  · intro arc l b st loads k v hk
    exact decodeArchiveDataLoop_cache_monotone ext repo arc l b st loads k v hk
  · intro arc l b st loads h
    exact decodeArchiveDataLoop_all_cached ext repo arc l b st loads h

/-- Witness for C7 at a concrete input: with `chunkPlain`'s plaintext
already cached, the read returns the cached bytes with zero loads and
cache unchanged. -/
theorem chunk_cache_load_once_witness :
    readArchiveChunk extId repoOk arcFile1 0 stCached =
      { bytes := [9], err := none, state := ⟨[("s1", [9])], false⟩,
        loads := 0 } :=
  (chunk_cache_load_once extId repoOk).1 arcFile1 0 stCached 0 [9]
    rfl rfl

/-- C8: if, at any point of a `File` read with fewer than `size` bytes
accumulated, the load of the chunk needed next fails, `ReadArchive`'s
loop aborts by panicking with that error: control never returns the
partially accumulated bytes to the caller. -/
theorem ReadArchive_load_failure_panics (ext : Externals)
    (repo : Repository) (arc : Archive) (size np io : Nat) (b : Bytes)
    (st : CacheState) (e : DecodeError)
    (hb : b.length < size)
    (hnp : np < arc.Chunks.length)
    (herr : (readArchiveChunk ext repo arc np st).err = some e) :
    readLoop ext repo arc size np io b st =
      (.panicked (some e), (readArchiveChunk ext repo arc np st).state) := by
  rw [readLoop]
  rw [if_pos hb, dif_neg (by omega : ¬arc.Chunks.length ≤ np)]
  dsimp only
  rw [herr]

/-- Witness for C8 at a concrete input: with an unavailable backend the
one-chunk read of one byte panics with the backend's error instead of
returning bytes. -/
theorem ReadArchive_load_failure_panics_witness :
    readLoop extId repoFail arcFile1 1 0 0 [] stEmpty =
      (.panicked (some (.external "unavailable")),
        (readArchiveChunk extId repoFail arcFile1 0 stEmpty).state) :=
  ReadArchive_load_failure_panics extId repoFail arcFile1 1 0 0 [] stEmpty
    (.external "unavailable") (by decide) (by decide) (by decide)

/-- C10: if the chunk needed next loads without error but decodes to a
zero-length plaintext while fewer than `size` bytes are accumulated,
`ReadArchive`'s loop panics — and because the load error is `nil` there,
it panics with a nil value — instead of returning bytes or an error. -/
theorem ReadArchive_empty_chunk_nil_panic (ext : Externals)
    (repo : Repository) (arc : Archive) (size np io : Nat) (b : Bytes)
    (st : CacheState)
    (hb : b.length < size)
    (hnp : np < arc.Chunks.length)
    (herr : (readArchiveChunk ext repo arc np st).err = none)
    (hlen : (readArchiveChunk ext repo arc np st).bytes.length = 0) :
    readLoop ext repo arc size np io b st =
      (.panicked none, (readArchiveChunk ext repo arc np st).state) := by
  rw [readLoop]
  rw [if_pos hb, dif_neg (by omega : ¬arc.Chunks.length ≤ np)]
  dsimp only
  rw [herr]
  dsimp only
  rw [if_pos hlen]

/-- Witness for C10 at a concrete input: a backend serving empty shards
makes the one-chunk read of one byte panic with a nil value. -/
theorem ReadArchive_empty_chunk_nil_panic_witness :
    readLoop extId repoEmpty arcFile1 1 0 0 [] stEmpty =
      (.panicked none,
        (readArchiveChunk extId repoEmpty arcFile1 0 stEmpty).state) :=
  ReadArchive_empty_chunk_nil_panic extId repoEmpty arcFile1 1 0 0 []
    stEmpty (by decide) (by decide) (by decide) (by decide)

/-- C9: for every `Directory` and every `SymLink` archive,
`DecodeArchive`'s return value is exactly the result of the final
`Lchown(UID, GID)` call on the target path, and replacing the
`MkdirAll`/`Symlink` oracles by any others — failing ones included —
leaves the return value unchanged: their failures are silently
ignored. -/
theorem DecodeArchive_dir_symlink_returns_lchown (ext : Externals)
    (fs : FSOps) (repo : Repository) (arc : Archive) (path : String)
    (hT : arc.AType = .Directory ∨ arc.AType = .SymLink) :
    (DecodeArchiveM ext fs repo arc path).2.2 = lchownResult fs path arc ∧
    ∀ (mk : String → Nat → Except String Unit)
      (sy : String → String → Except String Unit),
      (DecodeArchiveM ext { fs with mkdirAll := mk, symlink := sy } repo arc
          path).2.2 =
        (DecodeArchiveM ext fs repo arc path).2.2 := by
  rcases hT with hT | hT
  · constructor
    · unfold DecodeArchiveM
      rw [hT]
    · intro mk sy
      unfold DecodeArchiveM
      rw [hT]
      rfl
  · constructor
    · unfold DecodeArchiveM
      rw [hT]
    · intro mk sy
      unfold DecodeArchiveM
      rw [hT]
      rfl

/-- Witness for C9 at a concrete input: for a directory archive under an
oracle whose `lchown` fails, the return value is exactly that failure. -/
theorem DecodeArchive_dir_symlink_returns_lchown_witness :
    (DecodeArchiveM extId fsLchownFail repoOk arcDir "p").2.2 =
      lchownResult fsLchownFail "p" arcDir :=
  (DecodeArchive_dir_symlink_returns_lchown extId fsLchownFail repoOk
    arcDir "p" (Or.inl rfl)).1
